import Mathlib

/-!
# Verification of the version-set algebra (`src/version_set.rs`)

This file embeds the `VersionSet` trait of `src/version_set.rs` and the
`Ranges` interval representation it is implemented for, and proves the
algebraic claims of the specification against them.

The `VersionSet` trait is embedded as a structure `VersionSetSig` bundling
the five required operations (`empty`, `singleton`, `complement`,
`intersection`, `contains`); the four automatically implemented functions
(`full`, `union`, `is_disjoint`, `subset_of`) are definitions over that
structure, each translated from the corresponding default method body.

The `Ranges` type itself is not part of the source tree (only the
`impl VersionSet for Ranges<T>` block is), so it is modelled from the
specification: an ordered sequence of non-overlapping, non-adjacent
intervals whose edges are `Unbounded`, `Inclusive(v)` or `Exclusive(v)`
bounds over a totally ordered version domain.
-/

/-- One edge of a version interval.
Modelled from the spec: `Bound`: one of Unbounded-below / Unbounded-above
(both rendered here as `unbounded`, disambiguated by position),
`Inclusive(v)`, `Exclusive(v)`. -/
inductive Bound (T : Type) where
  | unbounded : Bound T
  | inclusive (v : T) : Bound T
  | exclusive (v : T) : Bound T
deriving DecidableEq, Repr

namespace Bound

/-- Logical negation of a bound at a gap edge.
Modelled from the spec: "Each gap's bounds are the logical negation of the
adjoining bound (Inclusive(v) on one side of a gap edge pairs with
Exclusive(v) on the other, and vice versa)." -/
def flip {T : Type} : Bound T → Bound T
  | unbounded => unbounded
  | inclusive v => exclusive v
  | exclusive v => inclusive v

theorem flip_flip {T : Type} (b : Bound T) : b.flip.flip = b := by
  cases b <;> rfl

theorem flip_ne_unbounded {T : Type} {b : Bound T} (h : b ≠ unbounded) :
    b.flip ≠ unbounded := by
  cases b <;> simp [flip] at h ⊢

end Bound

/-- The interval-sequence representation of a version set.
Modelled from the spec: "Range Set: an ordered sequence of intervals,
ordered by increasing lower bound", each interval a pair
(low bound, high bound). -/
abbrev RangesRep (T : Type) : Type := List (Bound T × Bound T)

namespace Ranges

variable {T : Type} [LinearOrder T]

/-- Whether a (low, high) bound pair delimits a syntactically non-empty
interval. Modelled from the spec: "Interval: a pair (low bound, high bound)
such that the interval is non-empty (low < high under the induced ordering,
accounting for inclusivity/exclusivity)"; with no adjacency notion on the
domain, the check is on the bare bounds. -/
def validSegment : Bound T → Bound T → Bool
  | .unbounded, _ => true
  | _, .unbounded => true
  | .inclusive a, .inclusive b => a ≤ b
  | .inclusive a, .exclusive b => a < b
  | .exclusive a, .inclusive b => a < b
  | .exclusive a, .exclusive b => a < b

/-- Whether a high bound is followed by a low bound with a non-empty gap in
between, so that the two adjoining intervals neither overlap nor touch.
Modelled from the spec: "Invariant 1 (disjointness): no two intervals
overlap. Invariant 2 (non-adjacency): no two consecutive intervals are
adjacent (touching)", with touching decided at shared bound values. -/
def gapOrder : Bound T → Bound T → Bool
  | .inclusive a, .inclusive b => a < b
  | .inclusive a, .exclusive b => a < b
  | .exclusive a, .inclusive b => a < b
  | .exclusive a, .exclusive b => a ≤ b
  | _, _ => false

/-- Canonical-form check for the intervals following a first one, given the
high bound of the preceding interval. -/
def canonicalFrom : Bound T → RangesRep T → Bool
  | _, [] => true
  | ph, (l, h) :: rest => gapOrder ph l && validSegment l h && canonicalFrom h rest

/-- Canonical-form check for a whole interval sequence: every interval
non-empty, intervals in increasing order, pairwise disjoint and
non-adjacent. Modelled from the spec, §3 "Range Set" invariants. -/
def canonical : RangesRep T → Bool
  | [] => true
  | (l, h) :: rest => validSegment l h && canonicalFrom h rest

/-- The empty set: zero intervals. Modelled from the spec:
"`empty`: zero-length interval sequence." -/
def empty : RangesRep T := []

/-- The full set. Modelled from the spec: "`full`: one unbounded interval"
/ "Full set = one interval (Unbounded-below, Unbounded-above)". -/
def full : RangesRep T := [(Bound.unbounded, Bound.unbounded)]

/-- The set containing exactly one version. Modelled from the spec:
"Singleton(v) = one interval (Inclusive(v), Inclusive(v))". -/
def singleton (v : T) : RangesRep T := [(Bound.inclusive v, Bound.inclusive v)]

/-- The gaps after the first interval: `ph` is the high bound of the
previous interval, the list is the remaining intervals. Modelled from the
spec, §4.3: a gap "between each `Ik` and `Ik+1`, and after `In` (if `In`'s
high bound is not Unbounded-above)", each gap edge the negation of the
adjoining bound. -/
def complementTail : Bound T → RangesRep T → RangesRep T
  | ph, [] =>
    match ph with
    | .unbounded => []
    | ph => [(ph.flip, Bound.unbounded)]
  | ph, (l, h) :: rest => (ph.flip, l.flip) :: complementTail h rest

/-- Complement of an interval sequence: the sequence of gaps. Modelled from
the spec, §4.3: a gap "before `I1` (if `I1`'s low bound is not
Unbounded-below), between each `Ik` and `Ik+1`, and after `In`"; complement
of empty is full. -/
def complement : RangesRep T → RangesRep T
  | [] => [(Bound.unbounded, Bound.unbounded)]
  | (Bound.unbounded, h) :: rest => complementTail h rest
  | (l, h) :: rest => (Bound.unbounded, l.flip) :: complementTail h rest

/-- Order on two lower bounds: is the first at or below the second. -/
def lowBelowEq : Bound T → Bound T → Bool
  | .unbounded, _ => true
  | _, .unbounded => false
  | .inclusive a, .inclusive b => a ≤ b
  | .inclusive a, .exclusive b => a ≤ b
  | .exclusive a, .inclusive b => a < b
  | .exclusive a, .exclusive b => a ≤ b

/-- Order on two upper bounds: is the first at or below the second. -/
def highBelowEq : Bound T → Bound T → Bool
  | _, .unbounded => true
  | .unbounded, _ => false
  | .inclusive a, .inclusive b => a ≤ b
  | .inclusive a, .exclusive b => a < b
  | .exclusive a, .inclusive b => a ≤ b
  | .exclusive a, .exclusive b => a ≤ b

/-- The larger of two lower bounds. -/
def maxLow (l1 l2 : Bound T) : Bound T := if lowBelowEq l1 l2 then l2 else l1

/-- The smaller of two upper bounds. -/
def minHigh (h1 h2 : Bound T) : Bound T := if highBelowEq h1 h2 then h1 else h2

/-- Intersection of two interval sequences. Modelled from the spec, §4.4:
"Two-pointer merge over both canonical sequences ... whenever the current
intervals from each side overlap, emit the overlap (max of the two lower
bounds, min of the two upper bounds) as a candidate interval, then advance
whichever side's interval ends first." -/
def intersection : RangesRep T → RangesRep T → RangesRep T
  | [], _ => []
  | _ :: _, [] => []
  | (l1, h1) :: r1, (l2, h2) :: r2 =>
    let lo := maxLow l1 l2
    let hi := minHigh h1 h2
    let rest :=
      if highBelowEq h1 h2 then intersection r1 ((l2, h2) :: r2)
      else intersection ((l1, h1) :: r1) r2
    if validSegment lo hi then (lo, hi) :: rest else rest
  termination_by xs ys => xs.length + ys.length

/-- Does a version satisfy a lower bound. -/
def lowContains : Bound T → T → Bool
  | .unbounded, _ => true
  | .inclusive a, v => a ≤ v
  | .exclusive a, v => a < v

/-- Does a version satisfy an upper bound. -/
def highContains : Bound T → T → Bool
  | .unbounded, _ => true
  | .inclusive a, v => v ≤ a
  | .exclusive a, v => v < a

/-- Membership: is the version inside some interval of the sequence.
Modelled from the spec, §4.5: "locate (via ordered scan ...) the interval
whose range could contain `v`, and test bound inclusivity." -/
def contains (rs : RangesRep T) (v : T) : Bool :=
  rs.any fun (l, h) => lowContains l v && highContains h v

end Ranges

/-- The `VersionSet` trait of `src/version_set.rs`: the five operations an
implementation must provide (`empty`, `singleton`, `complement`,
`intersection`, `contains`), bundled over a set type `S` and a version
type `V`. -/
structure VersionSetSig (S : Type) (V : Type) where
  empty : S
  singleton : V → S
  complement : S → S
  intersection : S → S → S
  contains : S → V → Bool

namespace VersionSetSig

variable {S V : Type} [DecidableEq S]

/-- Default method `VersionSet::full`:
`Self::empty().complement()`. -/
def full (sig : VersionSetSig S V) : S :=
  sig.complement sig.empty

/-- Default method `VersionSet::union`:
`self.complement().intersection(&other.complement()).complement()`. -/
def union (sig : VersionSetSig S V) (a b : S) : S :=
  sig.complement (sig.intersection (sig.complement a) (sig.complement b))

/-- Default method `VersionSet::is_disjoint`:
`self.intersection(other) == Self::empty()`. -/
def is_disjoint (sig : VersionSetSig S V) (a b : S) : Bool :=
  decide (sig.intersection a b = sig.empty)

/-- Default method `VersionSet::subset_of`:
`self == &self.intersection(other)`. -/
def subset_of (sig : VersionSetSig S V) (a b : S) : Bool :=
  decide (a = sig.intersection a b)

end VersionSetSig

/-- The `impl VersionSet for Ranges<T>` block of `src/version_set.rs`,
required methods: each trait primitive is the corresponding inherent
`Ranges` method. -/
def rangesSig (T : Type) [LinearOrder T] : VersionSetSig (RangesRep T) T where
  empty := Ranges.empty
  singleton := Ranges.singleton
  complement := Ranges.complement
  intersection := Ranges.intersection
  contains := Ranges.contains

namespace Ranges

variable {T : Type} [LinearOrder T]

/-- The overridden `Ranges::union` used by `impl VersionSet for Ranges<T>`.
Modelled from the spec: the override "must not be overridden unless the
override preserves these exact semantics — overrides exist only for
performance, never to change meaning", and the spec gives no separate
union algorithm for the Range Set, so the override is the De Morgan
derivation `complement(intersection(complement(a), complement(b)))`
expressed over the inherent `Ranges` operations. -/
def union (a b : RangesRep T) : RangesRep T :=
  complement (intersection (complement a) (complement b))

/-- The overridden `Ranges::is_disjoint` used by
`impl VersionSet for Ranges<T>`. Modelled from the spec: the override
preserves the derived semantics `intersection(a,b) == empty()`, expressed
over the inherent `Ranges` operations. -/
def is_disjoint (a b : RangesRep T) : Bool :=
  decide (intersection a b = (empty : RangesRep T))

/-- The overridden `Ranges::subset_of` used by
`impl VersionSet for Ranges<T>`. Modelled from the spec: the override
preserves the derived semantics `a == intersection(a,b)`, expressed over
the inherent `Ranges` operations. -/
def subset_of (a b : RangesRep T) : Bool :=
  decide (a = intersection a b)

end Ranges

/-- The required methods of the `VersionSet` trait, in source order
(`src/version_set.rs`, the declarations without a default body). -/
def versionSetPrimitives : List String :=
  ["empty", "singleton", "complement", "intersection", "contains"]

/-- The automatically implemented (default) methods of the `VersionSet`
trait, in source order (`src/version_set.rs`, the declarations under
"Automatically implemented functions"). -/
def versionSetDerived : List String :=
  ["full", "union", "is_disjoint", "subset_of"]

/-- C1: For every version set type that uses the trait's default
implementation, and for all values `a` and `b` of that type,
`union(a, b)` equals
`complement(intersection(complement(a), complement(b)))`. -/
theorem union_eq_deMorgan {S V : Type} (sig : VersionSetSig S V) (a b : S) :
    sig.union a b =
      sig.complement (sig.intersection (sig.complement a) (sig.complement b)) :=
  rfl

/-- C2: For every version set type that uses the trait's default
implementation, and for all values `a` and `b`, `subset_of(a, b)` returns
`true` if and only if `a` equals `intersection(a, b)`. -/
theorem subset_of_iff_eq_intersection {S V : Type} [DecidableEq S]
    (sig : VersionSetSig S V) (a b : S) :
    sig.subset_of a b = true ↔ a = sig.intersection a b := by
  simp [VersionSetSig.subset_of]

/-- C3: For every version set type that uses the trait's default
implementation, and for all values `a` and `b`, `is_disjoint(a, b)` returns
`true` if and only if `intersection(a, b)` equals `empty()`. -/
theorem is_disjoint_iff_intersection_empty {S V : Type} [DecidableEq S]
    (sig : VersionSetSig S V) (a b : S) :
    sig.is_disjoint a b = true ↔ sig.intersection a b = sig.empty := by
  simp [VersionSetSig.is_disjoint]

/-- C4: For every version set type that uses the trait's default
implementation, `full()` equals `complement(empty())`. -/
theorem full_eq_complement_empty {S V : Type} (sig : VersionSetSig S V) :
    sig.full = sig.complement sig.empty :=
  rfl

/-- C5: For the `Ranges<T>` implementation of the `VersionSet` trait, the
overridden derived methods agree with the trait's default derivations:
`Ranges::full() == Ranges::empty().complement()`,
`Ranges::union(a,b) ==
a.complement().intersection(&b.complement()).complement()`,
`Ranges::is_disjoint(a,b) == (a.intersection(b) == Ranges::empty())`, and
`Ranges::subset_of(a,b) == (a == a.intersection(b))`. -/
theorem ranges_overrides_agree {T : Type} [LinearOrder T] (a b : RangesRep T) :
    (Ranges.full : RangesRep T) = (rangesSig T).full ∧
    Ranges.union a b = (rangesSig T).union a b ∧
    Ranges.is_disjoint a b = (rangesSig T).is_disjoint a b ∧
    Ranges.subset_of a b = (rangesSig T).subset_of a b :=
  ⟨rfl, rfl, rfl, rfl⟩

namespace Ranges

variable {T : Type} [LinearOrder T]

/-- All bounds interior to the sequence are bounded: given the high bound
of the current interval and the following intervals, every high bound
except the final one and every following low bound is not `unbounded`.
This is a consequence of the canonical-form invariant used by the
complement proofs. -/
def innerOK : Bound T → RangesRep T → Prop
  | _, [] => True
  | h, (l, h2) :: rest =>
    h ≠ Bound.unbounded ∧ l ≠ Bound.unbounded ∧ innerOK h2 rest

theorem gapOrder_ne_unbounded {ph l : Bound T} (hg : gapOrder ph l = true) :
    ph ≠ Bound.unbounded ∧ l ≠ Bound.unbounded := by
  cases ph <;> cases l <;> simp_all [gapOrder]

theorem canonicalFrom_innerOK (rest : RangesRep T) : ∀ ph : Bound T,
    canonicalFrom ph rest = true → innerOK ph rest := by
  induction rest with
  | nil => intro ph _; trivial
  | cons p rest ih =>
    obtain ⟨l, h⟩ := p
    intro ph hc
    simp only [canonicalFrom, Bool.and_eq_true] at hc
    obtain ⟨⟨hg, _⟩, hrest⟩ := hc
    exact ⟨(gapOrder_ne_unbounded hg).1, (gapOrder_ne_unbounded hg).2,
      ih h hrest⟩

omit [LinearOrder T] in
theorem complementTail_flip (rest : RangesRep T) : ∀ h l : Bound T,
    l ≠ Bound.unbounded → innerOK h rest →
    complementTail l.flip (complementTail h rest) = (l, h) :: rest := by
  induction rest with
  | nil =>
    intro h l hl _
    cases l with
    | unbounded => exact absurd rfl hl
    | inclusive v => cases h <;> simp [complementTail, Bound.flip]
    | exclusive v => cases h <;> simp [complementTail, Bound.flip]
  | cons p rest ih =>
    obtain ⟨l2, h2⟩ := p
    intro h l hl hio
    obtain ⟨_, hl2, hio2⟩ := hio
    simp only [complementTail]
    rw [Bound.flip_flip, Bound.flip_flip, ih h2 l2 hl2 hio2]

omit [LinearOrder T] in
theorem complement_complementTail (rest : RangesRep T) (h : Bound T)
    (hh : h ≠ Bound.unbounded) (hio : innerOK h rest) :
    complement (complementTail h rest) = (Bound.unbounded, h) :: rest := by
  cases rest with
  | nil =>
    cases h with
    | unbounded => exact absurd rfl hh
    | inclusive v => rfl
    | exclusive v => rfl
  | cons p rest =>
    obtain ⟨l2, h2⟩ := p
    obtain ⟨_, hl2, hio2⟩ := hio
    cases h with
    | unbounded => exact absurd rfl hh
    | inclusive v =>
      show (Bound.unbounded, Bound.inclusive v) ::
          complementTail l2.flip (complementTail h2 rest) = _
      rw [complementTail_flip rest h2 l2 hl2 hio2]
    | exclusive v =>
      show (Bound.unbounded, Bound.exclusive v) ::
          complementTail l2.flip (complementTail h2 rest) = _
      rw [complementTail_flip rest h2 l2 hl2 hio2]

end Ranges

/-- C7: Complement is an involution: for every canonical `Ranges` value
`rs`, `complement(complement(rs))` equals `rs`. -/
theorem complement_involutive {T : Type} [LinearOrder T] (rs : RangesRep T)
    (hc : Ranges.canonical rs = true) :
    Ranges.complement (Ranges.complement rs) = rs := by
  cases rs with
  | nil => rfl
  | cons p rest =>
    obtain ⟨l, h⟩ := p
    have hcf : Ranges.canonicalFrom h rest = true := by
      simp only [Ranges.canonical, Bool.and_eq_true] at hc
      exact hc.2
    have hio := Ranges.canonicalFrom_innerOK rest h hcf
    cases l with
    | unbounded =>
      cases h with
      | unbounded =>
        cases rest with
        | nil => rfl
        | cons q rest =>
          obtain ⟨hq, -, -⟩ := hio
          exact absurd rfl hq
      | inclusive v =>
        show Ranges.complement
          (Ranges.complementTail (Bound.inclusive v) rest) = _
        rw [Ranges.complement_complementTail rest _ (by simp) hio]
      | exclusive v =>
        show Ranges.complement
          (Ranges.complementTail (Bound.exclusive v) rest) = _
        rw [Ranges.complement_complementTail rest _ (by simp) hio]
    | inclusive v =>
      show Ranges.complementTail (Bound.exclusive v)
        (Ranges.complementTail h rest) = _
      exact Ranges.complementTail_flip rest h (Bound.inclusive v) (by simp) hio
    | exclusive v =>
      show Ranges.complementTail (Bound.inclusive v)
        (Ranges.complementTail h rest) = _
      exact Ranges.complementTail_flip rest h (Bound.exclusive v) (by simp) hio

/-- Witness for C7 at a concrete canonical value over `ℕ`. -/
theorem complement_involutive_witness :
    Ranges.canonical
        [(Bound.inclusive (1 : ℕ), Bound.exclusive 3),
          (Bound.inclusive 5, Bound.unbounded)] = true ∧
      Ranges.complement (Ranges.complement
          [(Bound.inclusive (1 : ℕ), Bound.exclusive 3),
            (Bound.inclusive 5, Bound.unbounded)]) =
        [(Bound.inclusive 1, Bound.exclusive 3),
          (Bound.inclusive 5, Bound.unbounded)] :=
  ⟨by decide, complement_involutive _ (by decide)⟩

/-- A minimal conforming implementation of the interface over `Bool`
(the two sets being the empty set and the full set over a one-version
domain), used as a concrete test instance for the generic theorems. -/
def boolSig : VersionSetSig Bool Unit where
  empty := false
  singleton := fun _ => true
  complement := fun s => !s
  intersection := fun s t => s && t
  contains := fun s _ => s

/-- C6 counterexample: with the trait's default `subset_of` over the
`Ranges` implementation on `ℕ`, `subset_of(a, intersection(a, b))` is
`false` for `a = singleton 1` and `b = singleton 2` (their intersection is
empty and `a` is not), so it does not always return `true`. -/
theorem subset_of_intersection_cex :
    (rangesSig ℕ).subset_of ((rangesSig ℕ).singleton 1)
      ((rangesSig ℕ).intersection ((rangesSig ℕ).singleton 1)
        ((rangesSig ℕ).singleton 2)) = false := by
  simp [rangesSig, VersionSetSig.subset_of, Ranges.singleton,
    Ranges.intersection, Ranges.maxLow, Ranges.minHigh, Ranges.lowBelowEq,
    Ranges.highBelowEq, Ranges.validSegment]

/-- C6 (amended): for every version set implementation whose intersection
is commutative, associative and idempotent (as the interface contract
requires of conforming implementations), `subset_of(intersection(a, b), a)`
returns `true` for all values `a` and `b`. -/
theorem intersection_subset_of_left {S V : Type} [DecidableEq S]
    (sig : VersionSetSig S V)
    (hcomm : ∀ x y, sig.intersection x y = sig.intersection y x)
    (hassoc : ∀ x y z, sig.intersection (sig.intersection x y) z =
      sig.intersection x (sig.intersection y z))
    (hidem : ∀ x, sig.intersection x x = x) (a b : S) :
    sig.subset_of (sig.intersection a b) a = true := by
  simp only [VersionSetSig.subset_of, decide_eq_true_eq]
  rw [hcomm (sig.intersection a b) a, ← hassoc a a b, hidem a]

/-- Witness for C6's amended theorem at the concrete `Bool` instance. -/
theorem intersection_subset_of_left_witness :
    boolSig.subset_of (boolSig.intersection true false) true = true :=
  intersection_subset_of_left boolSig (by decide) (by decide) (by decide)
    true false

/-- C8: For every version `v`, `contains(singleton(v), v)` returns `true`,
and for every version `w` with `w != v`, `contains(singleton(v), w)`
returns `false`. -/
theorem contains_singleton {T : Type} [LinearOrder T] (v w : T) :
    Ranges.contains (Ranges.singleton v) v = true ∧
    (w ≠ v → Ranges.contains (Ranges.singleton v) w = false) := by
  constructor
  · simp [Ranges.contains, Ranges.singleton, Ranges.lowContains,
      Ranges.highContains]
  · intro hw
    simp only [Ranges.contains, Ranges.singleton, List.any_cons, List.any_nil,
      Ranges.lowContains, Ranges.highContains, Bool.or_false,
      Bool.and_eq_false_iff, decide_eq_false_iff_not, not_le]
    rcases lt_or_gt_of_ne hw with hlt | hgt
    · exact Or.inl hlt
    · exact Or.inr hgt

/-- Witness for C8 over `ℕ` with `v = 2` and `w = 3`. -/
theorem contains_singleton_witness :
    Ranges.contains (Ranges.singleton (2 : ℕ)) 2 = true ∧
      Ranges.contains (Ranges.singleton (2 : ℕ)) 3 = false :=
  ⟨(contains_singleton 2 3).1, (contains_singleton 2 3).2 (by decide)⟩

/-- C9 counterexample: the `VersionSet` trait does not declare exactly four
required operations with exactly three derived ones — it declares five
required operations and four derived ones. -/
theorem versionSet_op_counts_cex :
    ¬(versionSetPrimitives.length = 4 ∧ versionSetDerived.length = 3) := by
  decide

/-- C9 (amended): the `VersionSet` interface declares exactly five
primitive operations that an implementation must provide (`empty`,
`singleton`, `complement`, `intersection`, `contains`) and derives exactly
four more operations with default implementations (`full`, `union`,
`is_disjoint`, `subset_of`). -/
theorem versionSet_op_counts :
    versionSetPrimitives.length = 5 ∧ versionSetDerived.length = 4 := by
  decide

/-- C10: Every operation of the `VersionSet` interface is deterministic:
two calls with equal inputs yield equal results, for each of the nine
operations. In this embedding every operation is a pure function of its
arguments, mirroring the trait's signatures, which take only shared
references and return fresh values. -/
theorem versionSet_ops_deterministic {S V : Type} [DecidableEq S]
    (sig : VersionSetSig S V) (a a' b b' : S) (v v' : V)
    (ha : a = a') (hb : b = b') (hv : v = v') :
    sig.empty = sig.empty ∧
    sig.singleton v = sig.singleton v' ∧
    sig.complement a = sig.complement a' ∧
    sig.intersection a b = sig.intersection a' b' ∧
    sig.contains a v = sig.contains a' v' ∧
    sig.full = sig.full ∧
    sig.union a b = sig.union a' b' ∧
    sig.is_disjoint a b = sig.is_disjoint a' b' ∧
    sig.subset_of a b = sig.subset_of a' b' := by
  subst ha hb hv
  exact ⟨rfl, rfl, rfl, rfl, rfl, rfl, rfl, rfl, rfl⟩

/-- Witness for C10 at the `Ranges` implementation over `ℕ`. -/
theorem versionSet_ops_deterministic_witness :
    (rangesSig ℕ).empty = (rangesSig ℕ).empty ∧
    (rangesSig ℕ).singleton 3 = (rangesSig ℕ).singleton 3 ∧
    (rangesSig ℕ).complement (Ranges.singleton 1) =
      (rangesSig ℕ).complement (Ranges.singleton 1) ∧
    (rangesSig ℕ).intersection (Ranges.singleton 1) (Ranges.singleton 2) =
      (rangesSig ℕ).intersection (Ranges.singleton 1) (Ranges.singleton 2) ∧
    (rangesSig ℕ).contains (Ranges.singleton 1) 3 =
      (rangesSig ℕ).contains (Ranges.singleton 1) 3 ∧
    (rangesSig ℕ).full = (rangesSig ℕ).full ∧
    (rangesSig ℕ).union (Ranges.singleton 1) (Ranges.singleton 2) =
      (rangesSig ℕ).union (Ranges.singleton 1) (Ranges.singleton 2) ∧
    (rangesSig ℕ).is_disjoint (Ranges.singleton 1) (Ranges.singleton 2) =
      (rangesSig ℕ).is_disjoint (Ranges.singleton 1) (Ranges.singleton 2) ∧
    (rangesSig ℕ).subset_of (Ranges.singleton 1) (Ranges.singleton 2) =
      (rangesSig ℕ).subset_of (Ranges.singleton 1) (Ranges.singleton 2) :=
  versionSet_ops_deterministic (rangesSig ℕ) (Ranges.singleton 1)
    (Ranges.singleton 1) (Ranges.singleton 2) (Ranges.singleton 2) 3 3
    rfl rfl rfl
